import Mathlib

/-!
Verification of the quantum pixel transcoding behaviour of the PNM/PAM/PFM
coder (`coders/pnm.c`) and of the TIFF alpha/colormap handling embedded in
`wand/compare.c` of ImageMagick 6.5.4-10.

The embedding targets the default Q16 build (`MAGICKCORE_QUANTUM_DEPTH == 16`,
so `QuantumRange == 65535`, see `MagickQuantumRange` in version.h).

The C sources compute the scaling expressions in `double`; every quantity
involved is an integer below 2^33 and every denominator is at most 131070, so
the real value being truncated is always at distance at least 1/131070 from
the truncation boundary while the accumulated double rounding error is below
2^-20.  The exact natural-number translations used here therefore agree with
the `double` computations of the source on every input in range.
-/

/-- The canonical maximum sample value of the Q16 build:
`MAGICKCORE_QUANTUM_DEPTH == 16`, `QuantumRange = 65535`. -/
def QuantumRange : ℕ := 65535

/-- Modelled from the spec: the maximum sample value representable at bit
depth `d` (`GetQuantumRange` is declared in magick/quantum.h, which is not
part of this corpus; the spec pairs bit depth `D` with sample maximum
`2^D - 1`, as the PNM `maxval` headers written by WritePNMImage show). -/
def GetQuantumRange (depth : ℕ) : ℕ := 2 ^ depth - 1

/-- Exact integer form of the C idiom `(Quantum) (x/y + 0.5)` on nonnegative
`double` arguments: round-half-up of the fraction `a / b`. -/
def roundHalfUp (a b : ℕ) : ℕ := (2 * a + b) / (2 * b)

/-- The pixel scaling table of the plain PGM/PPM decoder (pnm.c lines 479-481
and 536-537): `scale[i] = (Quantum) (((double) QuantumRange*i)/max_value+0.5)`. -/
def scaleTableEntry (max_value i : ℕ) : ℕ := roundHalfUp (QuantumRange * i) max_value

/-- The TIFF palette colormap rescale (compare.c lines 2187-2192):
`(Quantum) (((double) QuantumRange*red_colormap[i])/range+0.5)`. -/
def tiffColormapEntry (range c : ℕ) : ℕ := roundHalfUp (QuantumRange * c) range

/-- Modelled from the spec: `ScaleToCanonical(sample, sample_max)`, the linear
rescale `round(sample * CANONICAL_MAX / sample_max)` with round-half-up
(`ScaleAnyToQuantum` of magick/quantum.h, which is not part of this corpus). -/
def ScaleAnyToQuantum (sample range : ℕ) : ℕ := roundHalfUp (QuantumRange * sample) range

/-- Modelled from the spec: `ScaleFromCanonical(canonical, sample_max)`, the
inverse rescale `round(canonical * sample_max / CANONICAL_MAX)` with
round-half-up (`ScaleQuantumToAny` of magick/quantum.h, not in this corpus). -/
def ScaleQuantumToAny (quantum range : ℕ) : ℕ := roundHalfUp (range * quantum) QuantumRange

/-- pnm.c ConstrainPixel (lines 136-146): a table offset outside `[0, extent]`
is reported as an InvalidPixel corrupt-image error and replaced by 0.  The
Bool records whether the error was raised. -/
def ConstrainPixel (offset : ℤ) (extent : ℕ) : ℤ × Bool :=
  if offset < 0 ∨ (extent : ℤ) < offset then (0, true) else (offset, false)

/-- The index into the scaling table used by the plain PGM/PPM decoder
(pnm.c lines 496-498 and 555-562): `scale[ConstrainPixel(image, intensity, max_value)]`. -/
def pgmScaleIndex (intensity : ℤ) (max_value : ℕ) : ℕ :=
  (ConstrainPixel intensity max_value).1.toNat

/-- Import of one plain-PGM sample (pnm.c case '2', lines 469-499): the scale
table is built, and consulted, only when `max_value != (1U*QuantumRange)`;
otherwise the raw sample is stored unchanged. -/
def pgmImportSample (max_value s : ℕ) : ℕ :=
  if max_value = QuantumRange then s
  else scaleTableEntry max_value (pgmScaleIndex (s : ℤ) max_value)

/-- The spec formula for sample import, written from the spec words: the exact
real rounding `floor(sample * CANONICAL_MAX / sample_max + 1/2)` over ℚ.  Used
only to compare against the source-derived `scaleTableEntry`. -/
def specScaleToCanonical (s max_value : ℕ) : ℤ :=
  ⌊(QuantumRange * s : ℚ) / max_value + 1 / 2⌋

lemma roundHalfUp_eq_floor (a b : ℕ) (hb : 0 < b) :
    (roundHalfUp a b : ℤ) = ⌊(a : ℚ) / b + 1 / 2⌋ := by
  have hb' : (0 : ℚ) < (b : ℚ) := by exact_mod_cast hb
  have hrw : (a : ℚ) / b + 1 / 2 = (((2 * a + b : ℕ) : ℤ) : ℚ) / ((2 * b : ℕ) : ℚ) := by
    push_cast
    field_simp
    ring
  rw [hrw, Rat.floor_intCast_div_natCast, roundHalfUp]
  exact (Int.natCast_div (2 * a + b) (2 * b)).symm

/-- Half-up rescale by the canonical maximum itself is the identity. -/
lemma roundHalfUp_quantumRange (v : ℕ) :
    roundHalfUp (QuantumRange * v) QuantumRange = v := by
  simp only [roundHalfUp, QuantumRange]
  omega

/-- C3: the decoder scale table and the TIFF colormap rescale both compute the
spec formula `round(sample * CANONICAL_MAX / sample_max)` with round-half-up. -/
theorem scale_matches_spec_round_half_up (max_value s : ℕ) (h : 0 < max_value) :
    (scaleTableEntry max_value s : ℤ) = specScaleToCanonical s max_value ∧
    (tiffColormapEntry max_value s : ℤ) = specScaleToCanonical s max_value := by
  constructor <;>
    simpa [scaleTableEntry, tiffColormapEntry, specScaleToCanonical] using
      roundHalfUp_eq_floor (QuantumRange * s) max_value h

/-- Witness for C3 at `max_value = 3`, `s = 2`. -/
theorem scale_matches_spec_round_half_up_witness :
    (scaleTableEntry 3 2 : ℤ) = specScaleToCanonical 2 3 ∧
    (tiffColormapEntry 3 2 : ℤ) = specScaleToCanonical 2 3 :=
  scale_matches_spec_round_half_up 3 2 (by norm_num)

/-- C4: when `max_value == QuantumRange` the decoder stores the raw sample
unchanged (the scale table is skipped entirely). -/
theorem pgm_import_identity_fast_path (x : ℕ) (_hx : x ≤ QuantumRange) :
    pgmImportSample QuantumRange x = x := by
  simp [pgmImportSample]

/-- Witness for C4 at `x = 7`. -/
theorem pgm_import_identity_fast_path_witness : pgmImportSample QuantumRange 7 = 7 :=
  pgm_import_identity_fast_path 7 (by norm_num [QuantumRange])

/-- C9: every scale-table index the plain PGM/PPM decoder uses is within the
table of `max_value + 1` entries, and ConstrainPixel raises the InvalidPixel
error exactly on the out-of-range offsets it replaces by 0. -/
theorem scale_table_lookup_safe (intensity : ℤ) (max_value : ℕ) :
    pgmScaleIndex intensity max_value < max_value + 1 ∧
    0 ≤ (ConstrainPixel intensity max_value).1 ∧
    (ConstrainPixel intensity max_value).1 ≤ (max_value : ℤ) ∧
    ((ConstrainPixel intensity max_value).2 = true ↔
      (intensity < 0 ∨ (max_value : ℤ) < intensity)) := by
  unfold pgmScaleIndex ConstrainPixel
  by_cases h : intensity < 0 ∨ (max_value : ℤ) < intensity
  · simp only [h, if_pos]
    refine ⟨by omega, le_refl _, by positivity, by simp [h]⟩
  · simp only [h, if_neg, not_false_iff]
    push_neg at h
    refine ⟨by omega, h.1, h.2, by simp [h.1, h.2]⟩

/-- Modelled from the spec: the bit-packing cursor of the depth-1 gray import
path (`ImportQuantumPixels` for GrayQuantum at depth 1, magick/quantum-import
is not part of this corpus).  Bit `j` of the row is extracted MSB-first from
byte `j / 8`. -/
def extractBit (bytes : List ℕ) (j : ℕ) : ℕ :=
  bytes.getD (j / 8) 0 / 2 ^ (7 - j % 8) % 2

/-- Modelled from the spec: one canonical sample of the depth-1 gray import.
The 1-bit sample scales by `round(s * CANONICAL_MAX / 1) = s * CANONICAL_MAX`;
with `min_is_white` (set by the P4 reader, pnm.c line 593) the single
extracted value is then inverted: `canonical = CANONICAL_MAX - canonical`. -/
def grayBilevelSample (min_is_white : Bool) (bytes : List ℕ) (j : ℕ) : ℕ :=
  let canonical := extractBit bytes j * QuantumRange
  if min_is_white then QuantumRange - canonical else canonical

/-- Modelled from the spec: the full depth-1 gray row import used by the raw
PBM (P4) reader, pnm.c lines 587-661. -/
def importGrayBilevelRow (min_is_white : Bool) (bytes : List ℕ) (columns : ℕ) : List ℕ :=
  (List.range columns).map (grayBilevelSample min_is_white bytes)

/-- C5: with min-is-white set, sample bit 1 decodes to canonical 0 (black) and
sample bit 0 to canonical `QuantumRange` (white); in particular the 2x1 PBM
row with input bits 0b10 (byte 0x80) decodes to `[0, QuantumRange]`. -/
theorem min_is_white_bilevel_decode :
    importGrayBilevelRow true [128] 2 = [0, QuantumRange] ∧
    ∀ (bytes : List ℕ) (j : ℕ),
      grayBilevelSample true bytes j =
        QuantumRange - extractBit bytes j * QuantumRange := by
  constructor
  · rfl
  · intro bytes j
    simp [grayBilevelSample]

/-- The alpha sample written by the PAM GrayAlpha export path at depths other
than 8 and 16 (pnm.c WritePNMImage case '7', lines 2075-2080 and 2088-2093):
`pixel=(unsigned char) ScaleQuantumToAny(p->opacity,range)` — the opacity is
scaled WITHOUT the `QuantumRange-` inversion used by every other alpha path
of WritePNMImage. -/
def pamGrayAlphaAlphaSample (range opacity : ℕ) : ℕ :=
  ScaleQuantumToAny opacity range

/-- The alpha sample written by the P6 PPM path (pnm.c lines 1991-1996 and
2008-2013) and by the PAM CMYKA/RGBA paths (lines 2112-2117, 2131-2136,
2152-2157, 2169-2174): `ScaleQuantumToAny((Quantum) (QuantumRange-p->opacity),
range)`. -/
def invertedAlphaSample (range opacity : ℕ) : ℕ :=
  ScaleQuantumToAny (QuantumRange - opacity) range

/-- C6: the PAM GrayAlpha export path violates the alpha sign convention.  For
a fully opaque pixel (canonical opacity 0) at depth 7 (sample range 127) it
writes alpha sample 0 — fully transparent in PNM/PAM terms — while the
convention, obeyed by the coder's other alpha paths, requires
`CANONICAL_MAX - opacity` scaled to 127. -/
theorem pam_gray_alpha_not_inverted :
    pamGrayAlphaAlphaSample 127 0 = 0 ∧
    invertedAlphaSample 127 0 = 127 ∧
    pamGrayAlphaAlphaSample 127 0 ≠ invertedAlphaSample 127 0 := by
  refine ⟨by decide, by decide, by decide⟩

/-- libtiff tiff.h: `EXTRASAMPLE_ASSOCALPHA`. -/
def EXTRASAMPLE_ASSOCALPHA : ℕ := 1

/-- libtiff tiff.h: `EXTRASAMPLE_UNASSALPHA`. -/
def EXTRASAMPLE_UNASSALPHA : ℕ := 2

/-- libtiff tiff.h: `PHOTOMETRIC_RGB`. -/
def PHOTOMETRIC_RGB : ℕ := 2

/-- The caller's "tiff:alpha" image option as the TIFF reader sees it: absent,
or present and (case-insensitively) equal to "associated", or present with any
other value. -/
inductive TiffAlphaOption
  | unset
  | associated
  | otherValue
  deriving DecidableEq

/-- Outcome of the TIFF reader's alpha signaling analysis. -/
structure TiffAlphaResult where
  matte : Bool
  associated_alpha : Bool
  disassociate : Bool
  deriving DecidableEq

/-- The associated-alpha determination of the TIFF reader (compare.c lines
2064-2098), translated statement by statement: `associated_alpha` starts
false; with no EXTRASAMPLES tag, `samples_per_pixel == 4` with RGB photometric
turns the matte on; with the tag present, `samples_per_pixel > 3` turns the
matte on (re-asserting `associated_alpha=MagickFalse`), then `sample_info[0]`
decides, `EXTRASAMPLE_ASSOCALPHA` additionally setting the quantum alpha type
to DisassociatedQuantumAlpha; finally a "tiff:alpha" image option overrides
`associated_alpha`. -/
def tiffAlphaDetect (extra_samples sample_info0 samples_per_pixel photometric : ℕ)
    (opt : TiffAlphaOption) (matte0 : Bool) : TiffAlphaResult :=
  let a0 := false
  let step1 : Bool × Bool × Bool :=
    if extra_samples = 0 then
      (if samples_per_pixel = 4 ∧ photometric = PHOTOMETRIC_RGB then true else matte0,
        a0, false)
    else
      let m1 := if 3 < samples_per_pixel then true else matte0
      let a1 := if 3 < samples_per_pixel then false else a0
      let m2 := if sample_info0 = EXTRASAMPLE_UNASSALPHA then true else m1
      let a2 := if sample_info0 = EXTRASAMPLE_UNASSALPHA then false else a1
      let m3 := if sample_info0 = EXTRASAMPLE_ASSOCALPHA then true else m2
      let a3 := if sample_info0 = EXTRASAMPLE_ASSOCALPHA then true else a2
      let d3 := if sample_info0 = EXTRASAMPLE_ASSOCALPHA then true else false
      (m3, a3, d3)
  let afinal :=
    match opt with
    | TiffAlphaOption.unset => step1.2.1
    | TiffAlphaOption.associated => true
    | TiffAlphaOption.otherValue => false
  ⟨step1.1, afinal, step1.2.2⟩

/-- C7: the associated-alpha treatment (the `associated_alpha` flag and the
DisassociatedQuantumAlpha quantum setting) depends only on the explicit
signals — the EXTRASAMPLES tag value and the "tiff:alpha" option — never on
`samples_per_pixel` or on the photometric layout: two inputs identical in
explicit signaling but differing in sample count and photometric get the same
alpha treatment. -/
theorem tiff_associated_alpha_flag_controlled
    (extra_samples sample_info0 spp1 spp2 ph1 ph2 : ℕ)
    (opt : TiffAlphaOption) (matte0 : Bool) :
    (tiffAlphaDetect extra_samples sample_info0 spp1 ph1 opt matte0).associated_alpha =
      (tiffAlphaDetect extra_samples sample_info0 spp2 ph2 opt matte0).associated_alpha ∧
    (tiffAlphaDetect extra_samples sample_info0 spp1 ph1 opt matte0).disassociate =
      (tiffAlphaDetect extra_samples sample_info0 spp2 ph2 opt matte0).disassociate := by
  cases opt <;>
    simp only [tiffAlphaDetect] <;>
    split_ifs <;>
    simp_all

/-- An RGB canonical pixel as the P6 paths touch it (the round-trip claim's
rows carry no alpha, and raw PPM reads never set opacity). -/
@[ext]
structure RGBPixel where
  red : ℕ
  green : ℕ
  blue : ℕ
  deriving DecidableEq

/-- Distance between two canonical channel values. -/
def chanDist (a b : ℕ) : ℕ := max a b - min a b

/-- WritePNMImage case '6' depth clamp (pnm.c lines 1954-1955):
`if (image->depth > 8) image->depth=16`, so only depths 1..8 and 16 reach the
P6 byte stream. -/
def ppmWriterDepth (depth : ℕ) : ℕ := if 8 < depth then 16 else depth

/-- After the clamp, the only bit depths the P6 writer emits are 1..8 and 16,
the domain of the round-trip theorem below. -/
lemma ppmWriterDepth_cases (depth : ℕ) :
    ppmWriterDepth depth ≤ 8 ∨ ppmWriterDepth depth = 16 := by
  unfold ppmWriterDepth
  split_ifs <;> omega

/-- One row of the raw PPM (P6) writer at depths at most 8, matte off
(pnm.c lines 1982-1998): each channel is rescaled by
`ScaleQuantumToAny(·,range)` and emitted with PopCharPixel as one byte.  The
depth-8 fast path defers to ExportQuantumPixels, modelled from the spec as
this same per-channel rescale. -/
def ppmExportRow8 (range : ℕ) : List RGBPixel → List ℕ
  | [] => []
  | p :: rest =>
    ScaleQuantumToAny p.red range :: ScaleQuantumToAny p.green range ::
      ScaleQuantumToAny p.blue range :: ppmExportRow8 range rest

/-- One row of the raw PPM (P6) writer at depth 16 (pnm.c lines 2000-2015):
each channel is rescaled and emitted with PopShortPixel(MSBEndian) — high
byte first.  The 16-bit fast path defers to ExportQuantumPixels, modelled
from the spec as this same rescale. -/
def ppmExportRow16 (range : ℕ) : List RGBPixel → List ℕ
  | [] => []
  | p :: rest =>
    ScaleQuantumToAny p.red range / 256 :: ScaleQuantumToAny p.red range % 256 ::
    ScaleQuantumToAny p.green range / 256 :: ScaleQuantumToAny p.green range % 256 ::
    ScaleQuantumToAny p.blue range / 256 :: ScaleQuantumToAny p.blue range % 256 ::
      ppmExportRow16 range rest

/-- One imported P6 sample: `ScaleAnyToQuantum(pixel, range)` (pnm.c lines
872-881 and 891-901).  At depths 8 and 16 the reader defers to
ImportQuantumPixels, modelled from the spec as the same rescale — for
`range = QuantumRange` the rescale is the identity, matching the depth-16
no-op path. -/
def ppmImportSample (range s : ℕ) : ℕ := ScaleAnyToQuantum s range

/-- The raw PPM (P6) reader at depths at most 8 (pnm.c lines 863-882): three
PushCharPixel reads per pixel, each rescaled into the canonical range. -/
def ppmImportRow8 (range : ℕ) : List ℕ → List RGBPixel
  | r :: g :: b :: rest =>
    ⟨ppmImportSample range r, ppmImportSample range g, ppmImportSample range b⟩ ::
      ppmImportRow8 range rest
  | _ => []

/-- The raw PPM (P6) reader at depth 16 (pnm.c lines 883-902): three
PushShortPixel(MSBEndian) reads per pixel — high byte first — each rescaled
into the canonical range. -/
def ppmImportRow16 (range : ℕ) : List ℕ → List RGBPixel
  | r1 :: r0 :: g1 :: g0 :: b1 :: b0 :: rest =>
    ⟨ppmImportSample range (r1 * 256 + r0), ppmImportSample range (g1 * 256 + g0),
      ppmImportSample range (b1 * 256 + b0)⟩ :: ppmImportRow16 range rest
  | _ => []

/-- Round trip of one canonical sample through the P6 encoding at sample
maximum `range`. -/
def ppmSampleRoundTrip (range v : ℕ) : ℕ :=
  ppmImportSample range (ScaleQuantumToAny v range)

/-- Round trip of one canonical pixel through the P6 encoding. -/
def ppmPixelRoundTrip (range : ℕ) (p : RGBPixel) : RGBPixel :=
  ⟨ppmSampleRoundTrip range p.red, ppmSampleRoundTrip range p.green,
    ppmSampleRoundTrip range p.blue⟩

/-- Export-then-import of one P6 row through the byte stream at bit depth `D`
(as the writer emits it after its depth clamp and as the reader, recovering
`D` from the written maxval `2^D - 1`, consumes it): one byte per channel for
`D ≤ 8`, two MSB-first bytes per channel otherwise. -/
def ppmRoundTripRow (D : ℕ) (row : List RGBPixel) : List RGBPixel :=
  if D ≤ 8 then
    ppmImportRow8 (GetQuantumRange D) (ppmExportRow8 (GetQuantumRange D) row)
  else
    ppmImportRow16 (GetQuantumRange D) (ppmExportRow16 (GetQuantumRange D) row)

lemma roundHalfUp_bounds (a b : ℕ) (hb : 0 < b) :
    2 * b * roundHalfUp a b ≤ 2 * a + b ∧
    2 * a + b < 2 * b * roundHalfUp a b + 2 * b := by
  constructor
  · have h := Nat.div_mul_le_self (2 * a + b) (2 * b)
    unfold roundHalfUp
    linarith [h]
  · have hmod := Nat.div_add_mod (2 * a + b) (2 * b)
    have hlt : (2 * a + b) % (2 * b) < 2 * b := Nat.mod_lt _ (by omega)
    unfold roundHalfUp
    linarith [hmod, hlt]

lemma sample_roundtrip_key (m v : ℕ) (hm : 0 < m) :
    2 * m * ppmSampleRoundTrip m v ≤ 2 * m * v + QuantumRange + m ∧
    2 * m * v ≤ 2 * m * ppmSampleRoundTrip m v + QuantumRange + m := by
  have hqr : 0 < QuantumRange := by norm_num [QuantumRange]
  have hs := roundHalfUp_bounds (m * v) QuantumRange hqr
  have hw := roundHalfUp_bounds (QuantumRange * roundHalfUp (m * v) QuantumRange) m hm
  have hunfold : ppmSampleRoundTrip m v =
      roundHalfUp (QuantumRange * roundHalfUp (m * v) QuantumRange) m := rfl
  rw [hunfold]
  constructor
  · linarith [hs.1, hw.1]
  · linarith [hs.2, hw.2]

lemma sample_roundtrip_close (m v : ℕ) (hm : 0 < m) :
    2 * m * chanDist v (ppmSampleRoundTrip m v) ≤ QuantumRange + m := by
  have key := sample_roundtrip_key m v hm
  generalize hW : ppmSampleRoundTrip m v = w at key ⊢
  rcases Nat.le_total v w with h | h
  · obtain ⟨d, rfl⟩ := Nat.le.dest h
    have hdist : chanDist v (v + d) = d := by
      unfold chanDist
      omega
    rw [hdist]
    linarith [key.1]
  · obtain ⟨d, rfl⟩ := Nat.le.dest h
    have hdist : chanDist (w + d) w = d := by
      unfold chanDist
      omega
    rw [hdist]
    linarith [key.2]

lemma sample_roundtrip_exact_at_qr (v : ℕ) :
    ppmSampleRoundTrip QuantumRange v = v := by
  have h1 : ScaleQuantumToAny v QuantumRange = v := roundHalfUp_quantumRange v
  have h2 : ScaleAnyToQuantum v QuantumRange = v := roundHalfUp_quantumRange v
  simp [ppmSampleRoundTrip, ppmImportSample, h1, h2]

lemma importRow8_exportRow8 (range : ℕ) (row : List RGBPixel) :
    ppmImportRow8 range (ppmExportRow8 range row) =
      row.map (ppmPixelRoundTrip range) := by
  induction row with
  | nil => rfl
  | cons p rest ih =>
    simp [ppmExportRow8, ppmImportRow8, ppmPixelRoundTrip, ppmSampleRoundTrip, ih]

lemma importRow16_exportRow16 (range : ℕ) (row : List RGBPixel) :
    ppmImportRow16 range (ppmExportRow16 range row) =
      row.map (ppmPixelRoundTrip range) := by
  induction row with
  | nil => rfl
  | cons p rest ih =>
    have hsplit : ∀ x : ℕ, x / 256 * 256 + x % 256 = x := by
      intro x
      omega
    simp [ppmExportRow16, ppmImportRow16, ppmPixelRoundTrip, ppmSampleRoundTrip,
      hsplit, ih]

lemma roundTripRow_eq_map (D : ℕ) (row : List RGBPixel) :
    ppmRoundTripRow D row = row.map (ppmPixelRoundTrip (GetQuantumRange D)) := by
  unfold ppmRoundTripRow
  split_ifs with h
  · exact importRow8_exportRow8 _ _
  · exact importRow16_exportRow16 _ _

/-- C1 (amended): the P6 export-then-import round trip reproduces each channel
up to half an external quantization step — `2*(2^D-1) * |back - orig| ≤
QuantumRange + (2^D-1)` canonical units, which is ≤ 1 only when `D` equals
the canonical depth — and is exactly the identity at `D = 16`, the canonical
quantum depth of the Q16 build. -/
theorem ppm_p6_roundtrip (D : ℕ) (row : List RGBPixel)
    (hD1 : 1 ≤ D) (hD : D ≤ 8 ∨ D = 16)
    (_hrow : ∀ p ∈ row,
      p.red ≤ QuantumRange ∧ p.green ≤ QuantumRange ∧ p.blue ≤ QuantumRange) :
    List.Forall₂
      (fun p q =>
        2 * GetQuantumRange D * chanDist p.red q.red ≤
          QuantumRange + GetQuantumRange D ∧
        2 * GetQuantumRange D * chanDist p.green q.green ≤
          QuantumRange + GetQuantumRange D ∧
        2 * GetQuantumRange D * chanDist p.blue q.blue ≤
          QuantumRange + GetQuantumRange D)
      row (ppmRoundTripRow D row) ∧
    (D = 16 → ppmRoundTripRow D row = row) := by
  have h2 : 2 ≤ 2 ^ D := by
    calc 2 = 2 ^ 1 := rfl
    _ ≤ 2 ^ D := Nat.pow_le_pow_right (by norm_num) hD1
  have hm : 0 < GetQuantumRange D := by
    unfold GetQuantumRange
    omega
  constructor
  · rw [roundTripRow_eq_map]
    rw [List.forall₂_map_right_iff]
    rw [List.forall₂_same]
    intro p _
    exact ⟨sample_roundtrip_close _ _ hm, sample_roundtrip_close _ _ hm,
      sample_roundtrip_close _ _ hm⟩
  · intro h16
    subst h16
    have hq : GetQuantumRange 16 = QuantumRange := by
      norm_num [GetQuantumRange, QuantumRange]
    have hid : ppmPixelRoundTrip (GetQuantumRange 16) = id := by
      funext p
      rw [hq]
      ext <;> simp [ppmPixelRoundTrip, sample_roundtrip_exact_at_qr]
    rw [roundTripRow_eq_map, hid, List.map_id]

/-- C1 witness: the amended bound instantiated at depth 8 on the row
`[(128,128,128)]`. -/
theorem ppm_p6_roundtrip_witness :
    List.Forall₂
      (fun p q =>
        2 * GetQuantumRange 8 * chanDist p.red q.red ≤
          QuantumRange + GetQuantumRange 8 ∧
        2 * GetQuantumRange 8 * chanDist p.green q.green ≤
          QuantumRange + GetQuantumRange 8 ∧
        2 * GetQuantumRange 8 * chanDist p.blue q.blue ≤
          QuantumRange + GetQuantumRange 8)
      ([⟨128, 128, 128⟩] : List RGBPixel)
      (ppmRoundTripRow 8 [⟨128, 128, 128⟩]) ∧
    ((8 : ℕ) = 16 → ppmRoundTripRow 8 [⟨128, 128, 128⟩] = [⟨128, 128, 128⟩]) := by
  refine ppm_p6_roundtrip 8 [⟨128, 128, 128⟩] (by norm_num) (Or.inl (by norm_num)) ?_
  intro p hp
  obtain rfl := List.mem_singleton.mp hp
  refine ⟨by norm_num [QuantumRange], by norm_num [QuantumRange],
    by norm_num [QuantumRange]⟩

/-- C1 counterexample: at depth 8 — a depth the P6 raw format supports and the
claim covers (`D ≥ 8`) — the canonical row `[(128,128,128)]` round-trips
through the written byte stream to `[(0,0,0)]`: each channel is off by 128
canonical units, not at most 1. -/
theorem ppm_p6_roundtrip_depth8_error :
    ppmRoundTripRow 8 ([⟨128, 128, 128⟩] : List RGBPixel) = [⟨0, 0, 0⟩] ∧
    chanDist 128 0 = 128 ∧ ¬ chanDist 128 0 ≤ 1 := by
  refine ⟨by decide, by decide, by decide⟩

/-- The corrupt-image reader errors ReadPNMImage can throw
(`ThrowReaderException(CorruptImageError, ...)` destroys the image list and
returns NULL to the caller). -/
inductive PNMError
  | UnableToReadImageData
  | ImproperImageHeader
  deriving DecidableEq

/-- The raw-format row loop of ReadPNMImage (cases '4','5','6','7','F';
pnm.c lines 599-655, 681-769, 799-919, 973-1183, 1216-1272), sequential
semantics: each iteration whose `status` is still true reads `extent` bytes
from the stream (`count=ReadBlob(image,extent,pixels)`), sets
`status=MagickFalse` when fewer bytes came back (`count != (ssize_t) extent`),
and hands the buffer to the import step; iterations that find `status`
already false skip their body (`continue`).  Returns the final status and the
row buffers handed to the import step. -/
def pnmRawReadRows (extent : ℕ) :
    ℕ → List ℕ → Bool → List (List ℕ) → Bool × List (List ℕ)
  | 0, _, status, acc => (status, acc)
  | r + 1, stream, status, acc =>
    if status = false then
      pnmRawReadRows extent r stream false acc
    else
      let chunk := stream.take extent
      pnmRawReadRows extent r (stream.drop extent) (decide (chunk.length = extent))
        (acc ++ [chunk])

/-- The end of every raw-format branch of ReadPNMImage (pnm.c lines 658-659,
772-773, 922-923, 1186-1187, 1275-1276): `if (status == MagickFalse)
ThrowReaderException(CorruptImageError,"UnableToReadImageData")` — the
partially decoded image is destroyed and the caller receives no image. -/
def ReadPNMRawImage (extent rows : ℕ) (stream : List ℕ) :
    Except PNMError (List (List ℕ)) :=
  let result := pnmRawReadRows extent rows stream true []
  if result.1 then Except.ok result.2 else Except.error PNMError.UnableToReadImageData

lemma pnmRawReadRows_false (extent : ℕ) (r : ℕ) (stream : List ℕ)
    (acc : List (List ℕ)) :
    (pnmRawReadRows extent r stream false acc).1 = false := by
  induction r generalizing stream acc with
  | zero => rfl
  | succ n ih => simpa [pnmRawReadRows] using ih stream acc

lemma pnmRawReadRows_status (extent : ℕ) (r : ℕ) (stream : List ℕ)
    (acc : List (List ℕ)) :
    (pnmRawReadRows extent r stream true acc).1 = decide (r * extent ≤ stream.length) := by
  induction r generalizing stream acc with
  | zero => simp [pnmRawReadRows]
  | succ n ih =>
    rw [show pnmRawReadRows extent (n + 1) stream true acc =
        pnmRawReadRows extent n (stream.drop extent)
          (decide ((stream.take extent).length = extent))
          (acc ++ [stream.take extent]) from rfl]
    by_cases h : extent ≤ stream.length
    · have hlen : decide ((stream.take extent).length = extent) = true := by
        simp [Nat.min_eq_left h]
      rw [hlen, ih]
      have hdrop : (stream.drop extent).length = stream.length - extent := by simp
      have hexp : (n + 1) * extent = n * extent + extent := by ring
      rw [hdrop, hexp, decide_eq_decide]
      generalize n * extent = t
      omega
    · have hlen : decide ((stream.take extent).length = extent) = false := by
        simp only [decide_eq_false_iff_not, List.length_take]
        omega
      rw [hlen, pnmRawReadRows_false]
      have hfalse : decide ((n + 1) * extent ≤ stream.length) = false := by
        simp only [decide_eq_false_iff_not]
        push_neg at h ⊢
        calc stream.length < extent := h
        _ ≤ (n + 1) * extent := Nat.le_mul_of_pos_left extent (Nat.succ_pos n)
      rw [hfalse]

/-- C2 (amended): when the stream holds fewer bytes than the resolved layout
predicts for the full image, ReadPNMImage does not record a warning and keep
the decoded prefix — the failure status set by the short `ReadBlob` makes the
remaining iterations skip their bodies and, after the loop, the reader throws
the fatal `CorruptImageError "UnableToReadImageData"`, destroying the image
and returning nothing to the caller. -/
theorem pnm_truncated_row_is_fatal (extent rows : ℕ) (stream : List ℕ)
    (h : stream.length < rows * extent) :
    ReadPNMRawImage extent rows stream = Except.error PNMError.UnableToReadImageData := by
  unfold ReadPNMRawImage
  have hst := pnmRawReadRows_status extent rows stream []
  have : decide (rows * extent ≤ stream.length) = false := by
    simp only [decide_eq_false_iff_not]
    omega
  rw [this] at hst
  simp [hst]

/-- C2 amended-claim witness: a 2-row image whose layout predicts 3 bytes per
row, over a 4-byte stream. -/
theorem pnm_truncated_row_is_fatal_witness :
    ReadPNMRawImage 3 2 [7, 7, 7, 7] = Except.error PNMError.UnableToReadImageData :=
  pnm_truncated_row_is_fatal 3 2 [7, 7, 7, 7] (by norm_num)

/-- C2 counterexample: with rows of 3 bytes and only 4 bytes available, the
first row decodes fully but the claim's predicted outcome — the image with
that row returned to the caller (with a warning) — does not happen: the
decoder returns the fatal error and no image at all. -/
theorem pnm_truncated_row_no_partial_image :
    ReadPNMRawImage 3 2 [7, 7, 7, 7] ≠ Except.ok [[7, 7, 7]] ∧
    pnmRawReadRows 3 2 [7, 7, 7, 7] true [] = (false, [[7, 7, 7], [7]]) := by
  have h1 : ReadPNMRawImage 3 2 [7, 7, 7, 7] =
      Except.error PNMError.UnableToReadImageData := rfl
  refine ⟨?_, rfl⟩
  rw [h1]
  intro hcontra
  exact Except.noConfusion hcontra

/-- The state shared by the workers of a parallel raw-decode loop: the stream
position (advanced only by ReadBlob) and the shared row counter `row`. -/
structure SharedRowState where
  pos : ℕ
  row : ℕ
  deriving DecidableEq

/-- One execution of the raw-decode critical section (pnm.c lines 623-638,
708-723, 829-844, 999-1015, 1239-1255): under
`#pragma omp critical (MagickCore_ReadPNMImage)` a single worker atomically
performs the ReadBlob at the current stream position and takes the next row
index (`offset=row++`) — the counter is incremented nowhere else.  The first
component is the worker's assignment: (row index, stream offset read). -/
def criticalSection (extent : ℕ) (s : SharedRowState) : (ℕ × ℕ) × SharedRowState :=
  ((s.row, s.pos), ⟨s.pos + extent, s.row + 1⟩)

/-- The assignments produced when the workers of `schedule` (arbitrary worker
ids, in the order in which they win the critical section) each execute the
critical section once; mutual exclusion means any interleaving is some such
total order, and the worker identity does not enter the transition. -/
def runSchedule (extent : ℕ) : List ℕ → SharedRowState → List (ℕ × ℕ)
  | [], _ => []
  | _ :: ws, s =>
    (criticalSection extent s).1 :: runSchedule extent ws (criticalSection extent s).2

/-- The pixel-cache row targeted by the import step of the raw P4/P5/P6/P7
loops (pnm.c lines 641, 726, 847, 1018):
`QueueCacheViewAuthenticPixels(image_view, 0, offset, ...)`. -/
def nonPFMTargetRow (offset : ℕ) : ℕ := offset

/-- The pixel-cache row targeted by the PFM import step (pnm.c lines
1258-1259): `QueueCacheViewAuthenticPixels(image_view, 0,
(long) (image->rows-offset-1), ...)`. -/
def pfmReadTargetRow (rows offset : ℕ) : ℕ := rows - offset - 1

lemma runSchedule_getD (extent : ℕ) (schedule : List ℕ) (s : SharedRowState) (k : ℕ)
    (hk : k < schedule.length) :
    (runSchedule extent schedule s).getD k (0, 0) = (s.row + k, s.pos + k * extent) := by
  induction schedule generalizing s k with
  | nil => simp at hk
  | cons w ws ih =>
    cases k with
    | zero => simp [runSchedule, criticalSection]
    | succ j =>
      have hj : j < ws.length := by simpa using hk
      have hrec := ih ⟨s.pos + extent, s.row + 1⟩ j hj
      simp only [runSchedule, List.getD_cons_succ, criticalSection]
      rw [hrec]
      simp only [Prod.mk.injEq]
      constructor
      · omega
      · ring

/-- C8 (amended): in every parallel raw-decode loop the row counter is read
and incremented only inside the critical section that performs the ReadBlob,
so for any interleaving of workers the k-th ReadBlob executed against the
stream receives row index k and reads the k-th row's bytes (offset
`k * extent`); in the P4/P5/P6/P7 loops that row index is also the
pixel-cache row imported into (the PFM loop instead stores it at row
`rows - k - 1`). -/
theorem raw_decode_read_order_serialized (extent k : ℕ) (schedule : List ℕ)
    (hk : k < schedule.length) :
    (runSchedule extent schedule ⟨0, 0⟩).getD k (0, 0) = (k, k * extent) ∧
    nonPFMTargetRow ((runSchedule extent schedule ⟨0, 0⟩).getD k (0, 0)).1 = k := by
  have h := runSchedule_getD extent schedule ⟨0, 0⟩ k hk
  simp only [Nat.zero_add] at h
  refine ⟨h, ?_⟩
  rw [h]
  rfl

/-- C8 witness: a 3-entry schedule of arbitrary worker ids, `k = 1`,
`extent = 5`. -/
theorem raw_decode_read_order_serialized_witness :
    (runSchedule 5 [9, 4, 4] ⟨0, 0⟩).getD 1 (0, 0) = (1, 5) ∧
    nonPFMTargetRow ((runSchedule 5 [9, 4, 4] ⟨0, 0⟩).getD 1 (0, 0)).1 = 1 :=
  raw_decode_read_order_serialized 5 1 [9, 4, 4] (by norm_num)

/-- C8 counterexample: the PFM loop is a parallel raw-decode loop of
ReadPNMImage, yet its k-th ReadBlob (k = 0 here, in a 2-row image) is
imported into pixel-cache row 1, not row k = 0. -/
theorem pfm_read_not_row_k :
    pfmReadTargetRow 2 ((runSchedule 5 [9, 4] ⟨0, 0⟩).getD 0 (0, 0)).1 = 1 ∧
    pfmReadTargetRow 2 ((runSchedule 5 [9, 4] ⟨0, 0⟩).getD 0 (0, 0)).1 ≠
      ((runSchedule 5 [9, 4] ⟨0, 0⟩).getD 0 (0, 0)).1 := by
  refine ⟨by decide, by decide⟩

/-- Byte order of a multi-byte sample stream (magick/quantum.h EndianType as
the PFM paths use it). -/
inductive EndianType
  | LSBEndian
  | MSBEndian
  deriving DecidableEq

/-- The PFM header scale the writer emits (pnm.c lines 2198-2199):
`WriteBlobString(image, image->endian != LSBEndian ? "1.0" : "-1.0")`,
parsed back by `atof`. -/
def pfmWriteScale (endian : EndianType) : ℚ :=
  if endian ≠ EndianType.LSBEndian then 1 else -1

/-- The endianness the PFM reader derives from the parsed header scale
(pnm.c line 1198): `image->endian = quantum_scale < 0.0 ? LSBEndian :
MSBEndian`. -/
def pfmReadEndian (quantum_scale : ℚ) : EndianType :=
  if quantum_scale < 0 then EndianType.LSBEndian else EndianType.MSBEndian

/-- The source rows in the order the PFM writer emits them (pnm.c line 2209):
`for (y=(long) image->rows-1; y >= 0; y--)`. -/
def pfmWriteOrder (rows : ℕ) : List ℕ := (List.range rows).reverse

/-- The scanline stream the PFM writer produces from an image (one abstract
row payload per scanline), last image row first. -/
def pfmWriteImage (img : List (List ℕ)) : List (List ℕ) :=
  (pfmWriteOrder img.length).map (fun y => img.getD y [])

/-- The image the PFM reader reconstructs from a scanline stream of a
`rows`-row file: scanline `offset` is stored at cache row
`rows - offset - 1`, so cache row `j` receives scanline `rows - 1 - j`. -/
def pfmReadImage (rows : ℕ) (scanlines : List (List ℕ)) : List (List ℕ) :=
  (List.range rows).map (fun j => scanlines.getD (rows - 1 - j) [])

lemma pfmWriteOrder_getD (rows i : ℕ) (hi : i < rows) :
    (pfmWriteOrder rows).getD i 0 = rows - 1 - i := by
  unfold pfmWriteOrder
  have hlen : (List.range rows).reverse.length = rows := by simp
  rw [List.getD_eq_getElem _ _ (by omega)]
  rw [List.getElem_reverse]
  simp only [List.getElem_range, List.length_range]

/-- C10: the PFM decoder stores the i-th file scanline into image row
`rows - 1 - i` and sets LSB endianness exactly when the header scale is
negative; the encoder emits image rows last-to-first and writes a negative
header scale exactly for LSB images — so a PFM write-then-read restores the
image (row order preserved) and its endianness. -/
theorem pfm_orientation_and_endianness (rows i : ℕ) (e : EndianType)
    (img : List (List ℕ)) (hi : i < rows) (himg : img.length = rows) :
    (pfmWriteOrder rows).getD i 0 = rows - 1 - i ∧
    pfmReadTargetRow rows i = rows - 1 - i ∧
    pfmReadEndian (pfmWriteScale e) = e ∧
    (pfmWriteScale e < 0 ↔ e = EndianType.LSBEndian) ∧
    pfmReadImage rows (pfmWriteImage img) = img := by
  refine ⟨pfmWriteOrder_getD rows i hi, ?_, ?_, ?_, ?_⟩
  · unfold pfmReadTargetRow
    omega
  · cases e <;> decide
  · cases e <;> decide
  · apply List.ext_getElem
    · simp [pfmReadImage, himg]
    · intro j hj hj2
      have hjr : j < rows := by
        simpa [pfmReadImage] using hj
      have hwlen : (pfmWriteImage img).length = rows := by
        simp [pfmWriteImage, pfmWriteOrder, himg]
      have hread : (pfmReadImage rows (pfmWriteImage img))[j] =
          (pfmWriteImage img).getD (rows - 1 - j) [] := by
        simp [pfmReadImage]
      rw [hread]
      have hr1j : rows - 1 - j < rows := by omega
      have hwrite : (pfmWriteImage img).getD (rows - 1 - j) [] =
          img.getD ((pfmWriteOrder rows).getD (rows - 1 - j) 0) [] := by
        unfold pfmWriteImage
        rw [himg]
        rw [List.getD_eq_getElem _ _ (by simpa [pfmWriteOrder] using hr1j)]
        rw [List.getElem_map]
        congr 1
        rw [List.getD_eq_getElem _ _ (by simpa [pfmWriteOrder] using hr1j)]
      rw [hwrite, pfmWriteOrder_getD rows _ hr1j]
      have hback : rows - 1 - (rows - 1 - j) = j := by omega
      rw [hback]
      rw [List.getD_eq_getElem _ _ (by omega)]

/-- C10 witness: a 3-row image, `i = 1`, LSB endianness. -/
theorem pfm_orientation_and_endianness_witness :
    (pfmWriteOrder 3).getD 1 0 = 3 - 1 - 1 ∧
    pfmReadTargetRow 3 1 = 3 - 1 - 1 ∧
    pfmReadEndian (pfmWriteScale EndianType.LSBEndian) = EndianType.LSBEndian ∧
    (pfmWriteScale EndianType.LSBEndian < 0 ↔
      EndianType.LSBEndian = EndianType.LSBEndian) ∧
    pfmReadImage 3 (pfmWriteImage [[10], [20], [30]]) = [[10], [20], [30]] :=
  pfm_orientation_and_endianness 3 1 EndianType.LSBEndian [[10], [20], [30]]
    (by norm_num) (by norm_num)
